import Mathlib

/-!
# KDSoap: client envelope construction and server configuration

A shallow embedding of `src/src/KDSoapClientInterface.cpp` and
`src/serverlib/KDSoapServer.cpp`, followed by the properties proved about it.

`QString` values are Lean strings.  Qt objects the code only talks to (the XML
stream writer, the host address, the log file, the process resource limits)
are modelled by explicit state that the embedded functions transform.
-/

namespace KDSoap

/-! ## QString helpers -/

/-- UTF-16 code units of one character, as QString stores it. -/
def QChar.utf16 (c : Char) : List Nat :=
  if c.toNat < 0x10000 then [c.toNat]
  else [0xD800 + (c.toNat - 0x10000) / 0x400, 0xDC00 + (c.toNat - 0x10000) % 0x400]

/-- UTF-16 code units of a string. -/
def QString.utf16 (s : String) : List Nat :=
  s.toList.flatMap QChar.utf16

/-- Lexicographic comparison of code-unit sequences. -/
def lexLt : List Nat → List Nat → Bool
  | [], [] => false
  | [], _ :: _ => true
  | _ :: _, [] => false
  | a :: as, b :: bs => a < b || (a == b && lexLt as bs)

/-- `QString::operator<`: code-unit-wise lexicographic order. -/
def QString.lt (a b : String) : Bool :=
  lexLt (QString.utf16 a) (QString.utf16 b)

/-- `QString::number(qlonglong)` and `QString::number(qulonglong)` in base 10:
a minus sign for negative values, then the decimal digits. -/
def QString.number (n : Int) : String :=
  if n < 0 then "-" ++ Nat.repr n.natAbs else Nat.repr n.natAbs

/-- Value of a digit sequence read left to right in base 10. -/
def decimalValue (cs : List Char) : Nat :=
  cs.foldl (fun acc c => 10 * acc + (c.toNat - 48)) 0

/-- Reads back a decimal numeral: an optional minus sign followed by one or
more ASCII digits.  Used only to state what "decimal digits of n" means. -/
def readDecimal (s : String) : Option Int :=
  match s.toList with
  | [] => none
  | '-' :: ds =>
    if ds ≠ [] ∧ ds.all Char.isDigit then some (-(decimalValue ds : Int)) else none
  | ds => if ds.all Char.isDigit then some (decimalValue ds : Int) else none

/-- The 64 characters of the base64 alphabet. -/
def base64Alphabet : List Char :=
  "ABCDEFGHIJKLMNOPQRSTUVWXYZabcdefghijklmnopqrstuvwxyz0123456789+/".toList

/-- Base64 character of a 6-bit value. -/
def base64Char (v : Nat) : Char :=
  base64Alphabet.getD (v % 64) 'A'

/-- `QByteArray::toBase64` on the byte values of the array. -/
def toBase64 : List Nat → List Char
  | [] => []
  | [a] =>
    [base64Char (a / 4), base64Char (a % 4 * 16), '=', '=']
  | [a, b] =>
    [base64Char (a / 4), base64Char (a % 4 * 16 + b / 16), base64Char (b % 16 * 4), '=']
  | a :: b :: c :: rest =>
    base64Char (a / 4) :: base64Char (a % 4 * 16 + b / 16) ::
      base64Char (b % 16 * 4 + c / 64) :: base64Char (c % 64) :: toBase64 rest

/-! ## QVariant and the value codec (KDSoapClientInterface.cpp, lines 41-121) -/

/-- `QMetaType::Float`, which is also `qMetaTypeId<float>()`. -/
def qMetaTypeId_float : Nat := 135

/-- A QVariant, by the type tag `userType()` switches on.

Integer payloads are the mathematical value held (an `int`, `qlonglong`,
`uint` or `qulonglong`); widening with `toLongLong()` / `toULongLong()` keeps
that value.  Floating-point, URL and calendar payloads carry the text Qt
renders for them in the expression the code uses, since that rendering is
Qt's, not this repository's.  `Other` is any type that is none of the `case`
labels: it carries its `userType()`, its `typeName()` and the result of
`QVariant::toString()` on it. -/
inductive QVariant where
  | Char (c : Char)
  | String (s : String)
  | Url (urlText : String)
  | ByteArray (bytes : List Nat)
  | Int (n : Int)
  | LongLong (n : Int)
  | UInt (n : Nat)
  | ULongLong (n : Nat)
  | Bool (b : Bool)
  | Float (toStringText : String)
  | Double (toStringText : String)
  | Time (asDateTimeText : String)
  | Date (utcDateTimeText : String)
  | DateTime (dateTimeText : String)
  | Other (userType : Nat) (typeName : String) (toStringText : String) (floatText : String)
  deriving DecidableEq, Repr

/-- `variantToTextValue`. -/
def variantToTextValue (value : QVariant) : String :=
  match value with
  | .Char c => String.singleton c
  | .String s => s
  | .Url urlText => urlText
  | .ByteArray bytes => String.mk (toBase64 bytes)
  | .Int n => QString.number n
  | .LongLong n => QString.number n
  | .UInt n => QString.number n
  | .ULongLong n => QString.number n
  | .Bool b => if b then "true" else "false"
  | .Float t => t
  | .Double t => t
  | .Time t => t
  | .Date t => t
  | .DateTime t => t
  | .Other userType _ toStringText floatText =>
    if userType = qMetaTypeId_float then floatText
    else toStringText

/-- `variantToXMLType`. -/
def variantToXMLType (value : QVariant) : String :=
  match value with
  | .Char _ => "xsd:string"
  | .String _ => "xsd:string"
  | .Url _ => "xsd:string"
  | .ByteArray _ => "xsd:base64Binary"
  | .Int _ => "xsd:int"
  | .LongLong _ => "xsd:int"
  | .UInt _ => "xsd:int"
  | .ULongLong _ => "xsd:unsignedInt"
  | .Bool _ => "xsd:boolean"
  | .Float _ => "xsd:float"
  | .Double _ => "xsd:double"
  | .Time _ => "xsd:time"
  | .Date _ => "xsd:date"
  | .DateTime _ => "xsd:dateTime"
  | .Other userType _ _ _ =>
    if userType = qMetaTypeId_float then "xsd:float"
    else ""

/-- Numeric `userType()` of a variant (the Qt 4 `QVariant::Type` values). -/
def QVariant.userType : QVariant → Nat
  | .Bool _ => 1
  | .Int _ => 2
  | .UInt _ => 3
  | .LongLong _ => 4
  | .ULongLong _ => 5
  | .Double _ => 6
  | .Char _ => 7
  | .String _ => 10
  | .ByteArray _ => 12
  | .Date _ => 14
  | .Time _ => 15
  | .DateTime _ => 16
  | .Url _ => 17
  | .Float _ => qMetaTypeId_float
  | .Other userType _ _ _ => userType

/-- The `case` labels of the two switches, in source order. -/
def switchLabels : List Nat :=
  [7, 10, 17, 12, 2, 4, 3, 5, 1, qMetaTypeId_float, 6, 15, 14, 16]

/-! ## QMap<QString, QVariant> -/

/-- A `QMap<QString, QVariant>`: its entries in iteration order. -/
structure QMap where
  entries : List (String × QVariant)
  deriving DecidableEq, Repr

/-- The invariant of a QMap: keys strictly ascending under `QString::operator<`. -/
def QMap.WF (m : QMap) : Prop :=
  m.entries.Pairwise fun a b => QString.lt a.1 b.1 = true

instance (m : QMap) : Decidable m.WF :=
  inferInstanceAs (Decidable (m.entries.Pairwise
    fun (a b : String × QVariant) => QString.lt a.1 b.1 = true))

/-- Insertion into the ordered entry list, as `QMap::insert` does with
`qMapLessThanKey`: skip smaller keys, replace the value of an equivalent key,
otherwise insert before the first larger key. -/
def insertEntry (k : String) (v : QVariant) : List (String × QVariant) → List (String × QVariant)
  | [] => [(k, v)]
  | (k1, v1) :: rest =>
    if QString.lt k1 k then (k1, v1) :: insertEntry k v rest
    else if QString.lt k k1 then (k, v) :: (k1, v1) :: rest
    else (k1, v) :: rest

/-- `QMap::insert`. -/
def QMap.insert (m : QMap) (k : String) (v : QVariant) : QMap :=
  { entries := insertEntry k v m.entries }

/-- The empty map. -/
def QMap.empty : QMap := { entries := [] }

/-- A KDSoapMessage, as far as the client interface reads it. -/
structure KDSoapMessage where
  arguments : QMap
  deriving DecidableEq, Repr

/-! ## QXmlStreamWriter -/

/-- An attribute with its namespace URI. -/
structure XmlAttribute where
  ns : String
  name : String
  value : String
  deriving DecidableEq, Repr

/-- An element of the written document: namespace URI, local name, the
namespace declarations written on it, attributes, character data, children. -/
inductive XmlElement where
  | mk (ns name : String) (nsDecls : List (String × String)) (attrs : List XmlAttribute)
      (text : String) (children : List XmlElement)
  deriving Repr

/-- Namespace URI of an element. -/
def XmlElement.ns : XmlElement → String
  | .mk ns _ _ _ _ _ => ns

/-- Local name of an element. -/
def XmlElement.name : XmlElement → String
  | .mk _ name _ _ _ _ => name

/-- Attributes of an element, in the order written. -/
def XmlElement.attrs : XmlElement → List XmlAttribute
  | .mk _ _ _ attrs _ _ => attrs

/-- Character data of an element. -/
def XmlElement.text : XmlElement → String
  | .mk _ _ _ _ text _ => text

/-- Child elements, in document order. -/
def XmlElement.children : XmlElement → List XmlElement
  | .mk _ _ _ _ _ children => children

/-- Adds an attribute to an element. -/
def XmlElement.addAttr : XmlElement → XmlAttribute → XmlElement
  | .mk ns name decls attrs text children, a => .mk ns name decls (attrs ++ [a]) text children

/-- Appends character data to an element. -/
def XmlElement.addText : XmlElement → String → XmlElement
  | .mk ns name decls attrs text children, t => .mk ns name decls attrs (text ++ t) children

/-- Appends a finished child to an element. -/
def XmlElement.addChild : XmlElement → XmlElement → XmlElement
  | .mk ns name decls attrs text children, c => .mk ns name decls attrs text (children ++ [c])

/-- State of a QXmlStreamWriter: the stack of elements still open (innermost
first), the namespace declarations waiting for the next start tag, and the
finished top-level element.  Elements are recorded by namespace URI and local
name; the prefix the writer picks for a namespace and the assertions Qt makes
on names in a debug build are left out. -/
structure QXmlStreamWriter where
  startedDocument : Bool
  pendingNamespaces : List (String × String)
  stack : List XmlElement
  root : Option XmlElement
  endedDocument : Bool

/-- A writer on an empty buffer. -/
def QXmlStreamWriter.new : QXmlStreamWriter :=
  { startedDocument := false, pendingNamespaces := [], stack := [], root := none,
    endedDocument := false }

/-- `writeStartDocument()`. -/
def QXmlStreamWriter.writeStartDocument (w : QXmlStreamWriter) : QXmlStreamWriter :=
  { w with startedDocument := true }

/-- `writeNamespace(uri, pfx)`: the declaration is written with the next start tag. -/
def QXmlStreamWriter.writeNamespace (w : QXmlStreamWriter) (uri pfx : String) :
    QXmlStreamWriter :=
  { w with pendingNamespaces := w.pendingNamespaces ++ [(uri, pfx)] }

/-- `writeStartElement(ns, name)`. -/
def QXmlStreamWriter.writeStartElement (w : QXmlStreamWriter) (ns name : String) :
    QXmlStreamWriter :=
  { w with stack := XmlElement.mk ns name w.pendingNamespaces [] "" [] :: w.stack,
           pendingNamespaces := [] }

/-- `writeAttribute(ns, name, value)` on the element whose start tag is open. -/
def QXmlStreamWriter.writeAttribute (w : QXmlStreamWriter) (ns name value : String) :
    QXmlStreamWriter :=
  match w.stack with
  | [] => w
  | top :: rest => { w with stack := top.addAttr { ns := ns, name := name, value := value } :: rest }

/-- `writeCharacters(text)`. -/
def QXmlStreamWriter.writeCharacters (w : QXmlStreamWriter) (text : String) :
    QXmlStreamWriter :=
  match w.stack with
  | [] => w
  | top :: rest => { w with stack := top.addText text :: rest }

/-- `writeEndElement()`: closes the innermost open element and hands it to its parent. -/
def QXmlStreamWriter.writeEndElement (w : QXmlStreamWriter) : QXmlStreamWriter :=
  match w.stack with
  | [] => w
  | top :: [] => { w with stack := [], root := some top }
  | top :: parent :: rest => { w with stack := parent.addChild top :: rest }

/-- `writeEndDocument()`: closes every element still open. -/
def QXmlStreamWriter.writeEndDocument (w : QXmlStreamWriter) : QXmlStreamWriter :=
  { (w.stack.foldl (fun acc _ => acc.writeEndElement) w) with endedDocument := true }

/-! ## KDSoapClientInterface::asyncCall (lines 123-186) -/

/-- `KDSoapClientInterface::Private`, without the network access manager. -/
structure ClientPrivate where
  host : String
  path : String
  messageNamespace : String
  deriving DecidableEq, Repr

/-- A QUrl as asyncCall fills it in. -/
structure QUrl where
  scheme : String
  host : String
  path : String
  deriving DecidableEq, Repr

/-- A QNetworkRequest: its URL, the Content-Type header and the raw headers
(name and UTF-8 text of the value). -/
structure QNetworkRequest where
  url : QUrl
  contentTypeHeader : Option String
  rawHeaders : List (String × String)
  deriving DecidableEq, Repr

/-- `setRawHeader(name, value)`: replaces an existing header of that name. -/
def QNetworkRequest.setRawHeader (r : QNetworkRequest) (name value : String) :
    QNetworkRequest :=
  { r with rawHeaders := (r.rawHeaders.filter fun h => h.1 ≠ name) ++ [(name, value)] }

/-- `rawHeader(name)`. -/
def QNetworkRequest.rawHeader (r : QNetworkRequest) (name : String) : Option String :=
  (r.rawHeaders.find? fun h => h.1 = name).map Prod.snd

/-- What asyncCall posts: the request and the document written into `data`. -/
structure PostedCall where
  request : QNetworkRequest
  data : QXmlStreamWriter

/-- The SOAP envelope namespace. -/
def soapNS : String := "http://schemas.xmlsoap.org/soap/envelope/"

/-- The XML Schema namespace the code uses. -/
def xmlSchemaNS : String := "http://www.w3.org/1999/XMLSchema"

/-- The XML Schema instance namespace the code uses. -/
def xmlSchemaInstanceNS : String := "http://www.w3.org/1999/XMLSchema-instance"

/-- One turn of the argument loop of asyncCall (lines 162-170). -/
def writeArgument (messageNamespace : String) (w : QXmlStreamWriter)
    (arg : String × QVariant) : QXmlStreamWriter :=
  let value := arg.2
  let type := variantToXMLType value
  if !type.isEmpty then
    (((w.writeStartElement messageNamespace arg.1).writeAttribute
      xmlSchemaInstanceNS "type" type).writeCharacters (variantToTextValue value)).writeEndElement
  else w

/-- `KDSoapClientInterface::asyncCall`, up to the hand-over to the network
access manager. -/
def asyncCall (d : ClientPrivate) (method : String) (message : KDSoapMessage)
    (action : String) : PostedCall :=
  let url : QUrl := { scheme := "http", host := d.host, path := d.path }
  let request : QNetworkRequest :=
    { url := url, contentTypeHeader := some "text/xml", rawHeaders := [] }
  let soapAction := if action.isEmpty then d.messageNamespace ++ method else action
  let request := request.setRawHeader "SoapAction" soapAction
  let writer := QXmlStreamWriter.new
  let writer := writer.writeStartDocument
  let writer := writer.writeNamespace soapNS "soap"
  let writer := writer.writeNamespace xmlSchemaNS "xsd"
  let writer := writer.writeNamespace xmlSchemaInstanceNS "xsi"
  let writer := writer.writeStartElement soapNS "Envelope"
  let writer := writer.writeAttribute soapNS "encodingStyle"
    "http://schemas.xmlsoap.org/soap/encoding/"
  let writer := writer.writeStartElement soapNS "Body"
  let writer := writer.writeStartElement d.messageNamespace method
  let args := message.arguments
  let writer := args.entries.foldl (writeArgument d.messageNamespace) writer
  let writer := writer.writeEndElement
  let writer := writer.writeEndElement
  let writer := writer.writeEndElement
  let writer := writer.writeEndDocument
  { request := request, data := writer }

/-- The method element of a written envelope: the only child of the Body,
itself the only child of the Envelope root. -/
def methodElement (w : QXmlStreamWriter) : Option XmlElement :=
  match w.root with
  | some envelope =>
    if envelope.ns = soapNS ∧ envelope.name = "Envelope" then
      match envelope.children with
      | [body] =>
        if body.ns = soapNS ∧ body.name = "Body" then
          match body.children with
          | [m] => some m
          | _ => none
        else none
      | _ => none
    else none
  | none => none

/-- The argument element the envelope format prescribes for a typed value. -/
def typedElement (ns key type text : String) : XmlElement :=
  .mk ns key [] [{ ns := xmlSchemaInstanceNS, name := "type", value := type }] text []

/-! ## QString::arg -/

/-- A piece of a format string, as `findArgEscapes` reads it: a plain
character, or a place marker `%N` / `%LN` with its number, whether it asks for
the localized form, and the characters it is written with. -/
inductive ArgSegment where
  | lit (c : Char)
  | esc (n : Nat) (localized : Bool) (raw : List Char)
  deriving DecidableEq, Repr

/-- Value of an ASCII digit. -/
def digitValue (c : Char) : Nat := c.toNat - 48

/-- Reads the place marker that may follow a `%`: an optional `L`, one digit,
and a second digit when there is one.  Gives the marker and what follows it. -/
def readEscape (rest : List Char) : Option (ArgSegment × List Char) :=
  let localized := rest.head? = some 'L'
  let body := if localized then rest.tail else rest
  let lead := if localized then ['%', 'L'] else ['%']
  match body with
  | d1 :: d2 :: more =>
    if d1.isDigit then
      if d2.isDigit then
        some (.esc (10 * digitValue d1 + digitValue d2) localized (lead ++ [d1, d2]), more)
      else some (.esc (digitValue d1) localized (lead ++ [d1]), d2 :: more)
    else none
  | [d1] =>
    if d1.isDigit then some (.esc (digitValue d1) localized (lead ++ [d1]), []) else none
  | [] => none

/-- Splits a format string into plain characters and place markers.  The
first argument bounds the number of steps; the length of the string is enough. -/
def scanSegments : Nat → List Char → List ArgSegment
  | 0, _ => []
  | _, [] => []
  | fuel + 1, c :: rest =>
    if c = '%' then
      match readEscape rest with
      | some (seg, more) => seg :: scanSegments fuel more
      | none => .lit c :: scanSegments fuel rest
    else .lit c :: scanSegments fuel rest

/-- The lowest place-marker number of a format string, if it has a marker. -/
def minEscape : List ArgSegment → Option Nat
  | [] => none
  | .lit _ :: rest => minEscape rest
  | .esc n _ _ :: rest =>
    match minEscape rest with
    | none => some n
    | some m => some (min n m)

/-- `replaceArgEscapes` with field width 0: every marker with the lowest
number becomes the argument (its localized form for `%L`), the rest stays. -/
def replaceSegments (lowest : Nat) (a larg : List Char) : List ArgSegment → List Char
  | [] => []
  | .lit c :: rest => c :: replaceSegments lowest a larg rest
  | .esc n localized raw :: rest =>
    (if n = lowest then (if localized then larg else a) else raw) ++
      replaceSegments lowest a larg rest

/-- `QString::arg(a)`: replaces every occurrence of the lowest-numbered place
marker by `a`, or by `larg` where the marker is written `%L`; a string without
a marker is returned as it is.  For a string argument `larg` is `a`. -/
def QString.arg (s a larg : String) : String :=
  let segs := scanSegments s.length s.toList
  match minEscape segs with
  | none => s
  | some lowest => String.mk (replaceSegments lowest a.toList larg.toList segs)

/-! ## KDSoapServer (KDSoapServer.cpp) -/

/-- A QHostAddress as endPoint reads it: whether it compares equal to
`QHostAddress::Any`, and the two parts `toString()` is made of, the address
itself and the IPv6 scope id (an interface name or an interface number; empty
when there is none). -/
structure QHostAddress where
  isAny : Bool
  addressText : String
  scopeId : String
  deriving DecidableEq, Repr

/-- `QHostAddress::toString()`: the scope id, when there is one, follows a `%`. -/
def QHostAddress.toString (a : QHostAddress) : String :=
  if a.scopeId.isEmpty then a.addressText else a.addressText ++ "%" ++ a.scopeId

/-- The default locale, as `QString::arg` uses it for a number at a `%L` marker. -/
structure QLocale where
  numberText : Nat → String

/-- Modelled from the spec: the socket list of `KDSoapSocketList_p.h`, which is
not among the sources.  It tracks the connections handled on the main thread;
here, the descriptors it was handed. -/
structure KDSoapSocketList where
  sockets : List Int
  deriving DecidableEq, Repr

/-- Modelled from the spec: `KDSoapSocketList::handleIncomingConnection`. -/
def KDSoapSocketList.handleIncomingConnection (l : KDSoapSocketList) (socketDescriptor : Int) :
    KDSoapSocketList :=
  { sockets := l.sockets ++ [socketDescriptor] }

/-- Modelled from the spec: `KDSoapSocketList::socketCount`. -/
def KDSoapSocketList.socketCount (l : KDSoapSocketList) : Nat :=
  l.sockets.length

/-- Modelled from the spec: the thread pool of `KDSoapThreadPool.h`, which is
not among the sources.  Its workers own the connections assigned to the pool;
here, the descriptors this server handed to it. -/
structure KDSoapThreadPool where
  connections : List Int
  deriving DecidableEq, Repr

/-- Modelled from the spec: `KDSoapThreadPool::handleIncomingConnection`. -/
def KDSoapThreadPool.handleIncomingConnection (p : KDSoapThreadPool) (socketDescriptor : Int) :
    KDSoapThreadPool :=
  { connections := p.connections ++ [socketDescriptor] }

/-- Modelled from the spec: `KDSoapThreadPool::numConnectedSockets`. -/
def KDSoapThreadPool.numConnectedSockets (p : KDSoapThreadPool) : Nat :=
  p.connections.length

/-- The thread pool objects of the process, by address. -/
abbrev Pools := Nat → KDSoapThreadPool

/-- A QFile: its name and whether it is open. -/
structure QFile where
  fileName : String
  isOpen : Bool
  deriving DecidableEq, Repr

/-- A KDSoapServer: what it inherits from QTcpServer (listening state, bound
address and port) and the members of `KDSoapServer::Private` the functions
below use.  `m_threadPool` is a pointer: `none` is the null pointer. -/
structure KDSoapServer where
  isListening : Bool
  serverAddress : QHostAddress
  serverPort : Nat
  m_threadPool : Option Nat
  m_mainThreadSocketList : Option KDSoapSocketList
  m_logFileName : String
  m_logFile : QFile
  deriving DecidableEq, Repr

/-- `KDSoapServer::incomingConnection` (lines 54-65). -/
def KDSoapServer.incomingConnection (s : KDSoapServer) (pools : Pools)
    (socketDescriptor : Int) : KDSoapServer × Pools :=
  match s.m_threadPool with
  | some p =>
    (s, Function.update pools p ((pools p).handleIncomingConnection socketDescriptor))
  | none =>
    let list := match s.m_mainThreadSocketList with
      | some l => l
      | none => { sockets := [] }
    ({ s with m_mainThreadSocketList := some (list.handleIncomingConnection socketDescriptor) },
      pools)

/-- A run of incomingConnection calls, one per descriptor, in order. -/
def KDSoapServer.incomingConnections (s : KDSoapServer) (pools : Pools)
    (socketDescriptors : List Int) : KDSoapServer × Pools :=
  socketDescriptors.foldl (fun st fd => st.1.incomingConnection st.2 fd) (s, pools)

/-- `KDSoapServer::numConnectedSockets` (lines 67-76). -/
def KDSoapServer.numConnectedSockets (s : KDSoapServer) (pools : Pools) : Nat :=
  match s.m_threadPool with
  | some p => (pools p).numConnectedSockets
  | none =>
    match s.m_mainThreadSocketList with
    | some l => l.socketCount
    | none => 0

/-- `KDSoapServer::setThreadPool` (lines 78-81). -/
def KDSoapServer.setThreadPool (s : KDSoapServer) (threadPool : Option Nat) : KDSoapServer :=
  { s with m_threadPool := threadPool }

/-- `KDSoapServer::threadPool`. -/
def KDSoapServer.threadPool (s : KDSoapServer) : Option Nat :=
  s.m_threadPool

/-- `KDSoapServer::endPoint` (lines 88-95).  The port is a quint16, so its
argument text is its decimal rendering, and the default locale's rendering at
a `%L` marker. -/
def KDSoapServer.endPoint (locale : QLocale) (s : KDSoapServer) : String :=
  let address := s.serverAddress
  let addressStr := if address.isAny then "127.0.0.1" else address.toString
  QString.arg (QString.arg (QString.arg "%1://%2:%3/path" "http" "http") addressStr addressStr)
    (QString.number s.serverPort) (locale.numberText s.serverPort)

/-- `KDSoapServer::setLogFileName` (lines 119-123). -/
def KDSoapServer.setLogFileName (s : KDSoapServer) (fileName : String) : KDSoapServer :=
  { s with m_logFileName := fileName }

/-- What the log functions see of the file system: which names
`QFile::open(Append)` succeeds on, the names it was called on so far, the
bytes written to each file so far, and the diagnostics printed. -/
structure LogWorld where
  canOpen : String → Bool
  openAttempts : List String
  written : List (String × String)
  diagnostics : List String

/-- `QFile::write`: appends to the file when it is open, does nothing otherwise. -/
def QFile.write (f : QFile) (w : LogWorld) (text : String) : LogWorld :=
  if f.isOpen then { w with written := w.written ++ [(f.fileName, text)] } else w

/-- `KDSoapServer::log` (lines 131-143). -/
def KDSoapServer.log (s : KDSoapServer) (w : LogWorld) (text : String) :
    KDSoapServer × LogWorld :=
  if !s.m_logFile.isOpen && !s.m_logFileName.isEmpty then
    let file : QFile := { s.m_logFile with fileName := s.m_logFileName }
    let w := { w with openAttempts := w.openAttempts ++ [file.fileName] }
    if !w.canOpen file.fileName then
      let w := { w with diagnostics := w.diagnostics ++
        ["Could not open log file for writing: " ++ s.m_logFileName] }
      ({ s with m_logFile := file, m_logFileName := "" }, w)
    else
      let file := { file with isOpen := true }
      ({ s with m_logFile := file }, file.write w text)
  else (s, s.m_logFile.write w text)

/-- A run of log() calls, one per text, in order. -/
def KDSoapServer.logAll (s : KDSoapServer) (w : LogWorld) (texts : List String) :
    KDSoapServer × LogWorld :=
  texts.foldl (fun st text => st.1.log st.2 text) (s, w)

/-- A `struct rlimit`: soft and hard limit, as `rlim_t` values. -/
structure Rlimit where
  rlim_cur : Nat
  rlim_max : Nat
  deriving DecidableEq, Repr

/-- The process as `getrlimit` and `setrlimit` on RLIMIT_NOFILE see it:
whether getrlimit succeeds, the current limits, the system's decision on a
change from the current limits to new ones, and the setrlimit calls made. -/
structure ProcessLimits where
  getrlimitWorks : Bool
  nofile : Rlimit
  permits : Rlimit → Rlimit → Bool
  setrlimitCalls : List Rlimit

/-- `setrlimit(RLIMIT_NOFILE, &lim)`: on success the limits are the new ones. -/
def setrlimit (os : ProcessLimits) (lim : Rlimit) : Bool × ProcessLimits :=
  let os := { os with setrlimitCalls := os.setrlimitCalls ++ [lim] }
  if os.permits os.nofile lim then (true, { os with nofile := lim }) else (false, os)

/-- The usual decision of the system: the soft limit may not exceed the hard
limit, and only a privileged process may raise the hard limit (up to the
system's ceiling). -/
def posixPermits (privileged : Bool) (ceiling : Nat) (old new : Rlimit) : Bool :=
  decide (new.rlim_cur ≤ new.rlim_max) &&
    (decide (new.rlim_max ≤ old.rlim_max) || (privileged && decide (new.rlim_max ≤ ceiling)))

/-- An `int` after an addition: the value wrapped to 32 bits, two's complement. -/
def toInt32 (n : Int) : Int :=
  (n + 2 ^ 31) % 2 ^ 32 - 2 ^ 31

/-- The conversion `rlim_t(sockets)` of an `int` to the unsigned 64-bit `rlim_t`. -/
def rlim_t (n : Int) : Nat :=
  (n % 2 ^ 64).toNat

/-- Lines 177-188 of setExpectedSocketCount: raise the soft limit to the hard
limit in `lim` and hand it to setrlimit. -/
def applyLimit (os : ProcessLimits) (lim : Rlimit) : Bool × ProcessLimits :=
  let lim := { lim with rlim_cur := lim.rlim_max }
  setrlimit os lim

/-- `KDSoapServer::setExpectedSocketCount` (lines 150-189), in a Q_OS_UNIX build. -/
def setExpectedSocketCount (os : ProcessLimits) (sockets : Int) : Bool × ProcessLimits :=
  if !os.getrlimitWorks then (false, os)
  else
    let lim := os.nofile
    if sockets > -1 then
      let sockets := toInt32 (sockets + 20)
      if rlim_t sockets ≤ lim.rlim_cur then (true, os)
      else
        let lim :=
          if rlim_t sockets > lim.rlim_max then { lim with rlim_max := rlim_t sockets } else lim
        applyLimit os lim
    else applyLimit os lim

/-! ## The argument loop of asyncCall -/

/-- The argument elements asyncCall writes for a list of entries: one per
entry whose type tag is not empty, in entry order. -/
def argumentElements (ns : String) (entries : List (String × QVariant)) : List XmlElement :=
  (entries.filter fun e => !(variantToXMLType e.2).isEmpty).map fun e =>
    typedElement ns e.1 (variantToXMLType e.2) (variantToTextValue e.2)

/-- Appends finished children to an element, one after the other. -/
def addChildren (top : XmlElement) (cs : List XmlElement) : XmlElement :=
  cs.foldl XmlElement.addChild top

/-! ## Concrete inputs used below -/

/-- A client interface for the namespace `urn:calc`. -/
def calcInterface : ClientPrivate :=
  { host := "localhost", path := "/calc", messageNamespace := "urn:calc" }

/-- The message with arguments b = 2 and a = 1, added in that order. -/
def addMessage : KDSoapMessage :=
  { arguments := (QMap.empty.insert "b" (.Int 2)).insert "a" (.Int 1) }

/-- A value of a type that is none of the switch labels (a QStringList, type 11). -/
def stringListValue : QVariant := .Other 11 "QStringList" "one" ""

/-- A message whose only argument is of an unsupported kind. -/
def listMessage : KDSoapMessage :=
  { arguments := QMap.empty.insert "items" stringListValue }

/-! ## endPoint -/

/-- The C locale: numbers without group separators. -/
def cLocale : QLocale := { numberText := fun n => QString.number n }

/-- A server with nothing configured, not listening. -/
def freshServer : KDSoapServer :=
  { isListening := false,
    serverAddress := { isAny := false, addressText := "", scopeId := "" },
    serverPort := 0,
    m_threadPool := none,
    m_mainThreadSocketList := none,
    m_logFileName := "",
    m_logFile := { fileName := "", isOpen := false } }

/-- A server listening on the wildcard address, port 8080. -/
def wildcardServer : KDSoapServer :=
  { freshServer with
    isListening := true,
    serverAddress := { isAny := true, addressText := "0.0.0.0", scopeId := "" },
    serverPort := 8080 }

/-- A server listening on the link-local IPv6 address fe80::1 of the
interface with the numeric scope id 3, port 8080. -/
def linkLocalServer : KDSoapServer :=
  { freshServer with
    isListening := true,
    serverAddress := { isAny := false, addressText := "fe80::1", scopeId := "3" },
    serverPort := 8080 }

/-! ## Dispatch -/

/-- No thread pool has been handed a connection. -/
def noPools : Pools := fun _ => { connections := [] }

/-- The wildcard server after it accepted the connections 5 and 6 without a
thread pool: both are on the main-thread socket list. -/
def servingServer : KDSoapServer :=
  ((wildcardServer.incomingConnection noPools 5).1.incomingConnection noPools 6).1

/-! ## Descriptor limits -/

/-- An unprivileged process with soft limit 1024 and hard limit 4096. -/
def userLimits : ProcessLimits :=
  { getrlimitWorks := true,
    nofile := { rlim_cur := 1024, rlim_max := 4096 },
    permits := posixPermits false 1048576,
    setrlimitCalls := [] }

/-! ## Logging -/

/-- A file system on which only "server.log" can be opened, nothing logged yet. -/
def logWorld : LogWorld :=
  { canOpen := fun name => name = "server.log",
    openAttempts := [], written := [], diagnostics := [] }

/-- A server whose log file "server.log" is open: the log file name was set
and one line was logged. -/
def loggingServer : KDSoapServer × LogWorld :=
  (freshServer.setLogFileName "server.log").log logWorld "started"

/-! # Properties -/

/-! ## Decimal rendering -/

theorem digitChar_isDigit (k : Nat) (hk : k < 10) :
    (Nat.digitChar k).isDigit = true ∧ (Nat.digitChar k).toNat - 48 = k := by
  interval_cases k <;> decide

theorem decimalValue_snoc (pre : List Char) (c : Char) :
    decimalValue (pre ++ [c]) = 10 * decimalValue pre + (c.toNat - 48) := by
  simp [decimalValue, List.foldl_append]

theorem toDigitsCore_spec (fuel : Nat) : ∀ (n : Nat) (ds : List Char), n < fuel →
    ∃ pre, Nat.toDigitsCore 10 fuel n ds = pre ++ ds ∧ pre ≠ [] ∧
      (∀ c ∈ pre, c.isDigit = true) ∧ decimalValue pre = n := by
  induction fuel with
  | zero => intro n ds h; omega
  | succ fuel ih =>
    intro n ds h
    have hd := digitChar_isDigit (n % 10) (Nat.mod_lt _ (by decide))
    unfold Nat.toDigitsCore
    by_cases h0 : n / 10 = 0
    · refine ⟨[Nat.digitChar (n % 10)], by simp [h0], by simp, by simpa using hd.1, ?_⟩
      have hn : n % 10 = n := by omega
      rw [hn] at hd
      simp [decimalValue, hn, hd.2]
    · obtain ⟨pre, hpre, _, hall, hval⟩ := ih (n / 10) (Nat.digitChar (n % 10) :: ds) (by omega)
      refine ⟨pre ++ [Nat.digitChar (n % 10)], by simp [h0, hpre], by simp, ?_, ?_⟩
      · intro c hc
        rcases List.mem_append.mp hc with hc | hc
        · exact hall c hc
        · simp at hc; rw [hc]; exact hd.1
      · rw [decimalValue_snoc, hval, hd.2]; omega

theorem repr_spec (n : Nat) :
    (Nat.repr n).toList ≠ [] ∧ (∀ c ∈ (Nat.repr n).toList, c.isDigit = true) ∧
      decimalValue (Nat.repr n).toList = n := by
  obtain ⟨pre, hpre, hne, hall, hval⟩ := toDigitsCore_spec (n + 1) n [] (by omega)
  have : (Nat.repr n).toList = pre := by
    simp [Nat.repr, Nat.toDigits, hpre, List.asString]
  rw [this]
  exact ⟨hne, hall, hval⟩

/-- Reading back what `QString::number` renders gives the number. -/
theorem readDecimal_number (n : Int) : readDecimal (QString.number n) = some n := by
  obtain ⟨hne, hall, hval⟩ := repr_spec n.natAbs
  unfold readDecimal QString.number
  by_cases hn : n < 0
  · have hl : ("-" ++ Nat.repr n.natAbs).toList = '-' :: (Nat.repr n.natAbs).toList := by
      simp [String.toList]
    simp only [hn, if_true, hl]
    have hall2 : (Nat.repr n.natAbs).toList.all Char.isDigit = true := by
      simpa [List.all_eq_true] using hall
    simp only [hne, hall2, ne_eq, not_false_eq_true, and_self, if_true, hval]
    congr 1
    omega
  · simp only [hn, if_false]
    have hall2 : (Nat.repr n.natAbs).toList.all Char.isDigit = true := by
      simpa [List.all_eq_true] using hall
    split
    · rename_i h; exact absurd h hne
    · rename_i ds h
      have : ('-' : Char).isDigit = true := hall _ (by rw [h]; simp)
      exact absurd this (by decide)
    · simp only [hall2, if_true, hval]
      congr 1
      omega

/-! ## The argument loop of asyncCall -/

theorem isEmpty_eq_decide (s : String) : s.isEmpty = decide (s = "") := by
  by_cases h : s = ""
  · subst h; rfl
  · have h1 : ¬ (s.isEmpty = true) := fun h2 => h ((String.isEmpty_iff s).mp h2)
    simp only [Bool.not_eq_true] at h1
    simp [h, h1]

theorem addChildren_mk (ns name : String) (decls : List (String × String))
    (attrs : List XmlAttribute) (text : String) (cs : List XmlElement) :
    ∀ children : List XmlElement,
      addChildren (.mk ns name decls attrs text children) cs =
        .mk ns name decls attrs text (children ++ cs) := by
  induction cs with
  | nil => intro children; simp [addChildren]
  | cons c cs ih =>
    intro children
    have := ih (children ++ [c])
    simp only [addChildren, List.foldl_cons, XmlElement.addChild] at this ⊢
    rw [this]; simp

theorem writeArgument_stack (ns : String) (w : QXmlStreamWriter) (arg : String × QVariant)
    (top : XmlElement) (rest : List XmlElement)
    (hstack : w.stack = top :: rest) (hpending : w.pendingNamespaces = []) :
    writeArgument ns w arg =
      { w with stack := addChildren top (argumentElements ns [arg]) :: rest } := by
  cases w with
  | mk started pending stack root ended =>
    simp only at hstack hpending
    subst hstack hpending
    by_cases h : (variantToXMLType arg.2).isEmpty = true
    · simp [writeArgument, argumentElements, addChildren, h]
    · simp [writeArgument, argumentElements, addChildren, h,
        QXmlStreamWriter.writeStartElement, QXmlStreamWriter.writeAttribute,
        QXmlStreamWriter.writeCharacters, QXmlStreamWriter.writeEndElement,
        XmlElement.addAttr, XmlElement.addText, typedElement]

theorem argumentElements_cons (ns : String) (e : String × QVariant)
    (es : List (String × QVariant)) :
    argumentElements ns (e :: es) = argumentElements ns [e] ++ argumentElements ns es := by
  by_cases h : (variantToXMLType e.2).isEmpty = true <;>
    simp [argumentElements, List.filter_cons, h]

theorem addChildren_append (top : XmlElement) (xs ys : List XmlElement) :
    addChildren top (xs ++ ys) = addChildren (addChildren top xs) ys := by
  simp [addChildren, List.foldl_append]

theorem writeArguments_stack (ns : String) (entries : List (String × QVariant)) :
    ∀ (w : QXmlStreamWriter) (top : XmlElement) (rest : List XmlElement),
      w.stack = top :: rest → w.pendingNamespaces = [] →
      entries.foldl (writeArgument ns) w =
        { w with stack := addChildren top (argumentElements ns entries) :: rest } := by
  induction entries with
  | nil =>
    intro w top rest hstack _
    cases w
    simp only at hstack
    simp [argumentElements, addChildren, hstack]
  | cons e es ih =>
    intro w top rest hstack hpending
    rw [List.foldl_cons, writeArgument_stack ns w e top rest hstack hpending,
      ih { w with stack := addChildren top (argumentElements ns [e]) :: rest }
        (addChildren top (argumentElements ns [e])) rest rfl hpending,
      argumentElements_cons ns e es, addChildren_append]

/-- The envelope asyncCall writes: the method element, in the message
namespace, holds the argument elements and nothing else. -/
theorem asyncCall_methodElement (d : ClientPrivate) (method action : String)
    (message : KDSoapMessage) :
    methodElement (asyncCall d method message action).data =
      some (.mk d.messageNamespace method [] [] ""
        (argumentElements d.messageNamespace message.arguments.entries)) := by
  unfold asyncCall
  simp only []
  rw [writeArguments_stack d.messageNamespace message.arguments.entries _
    (.mk d.messageNamespace method [] [] "" [])
    [.mk soapNS "Body" [] [] "" [],
     .mk soapNS "Envelope" [(soapNS, "soap"), (xmlSchemaNS, "xsd"), (xmlSchemaInstanceNS, "xsi")]
       [{ ns := soapNS, name := "encodingStyle",
          value := "http://schemas.xmlsoap.org/soap/encoding/" }] "" []]
    rfl rfl]
  rw [addChildren_mk]
  rfl

/-! ## QMap keeps its keys ascending -/

theorem lexLt_trans : ∀ a b c : List Nat, lexLt a b = true → lexLt b c = true →
    lexLt a c = true := by
  intro a
  induction a with
  | nil =>
    intro b c hab hbc
    cases b with
    | nil => simp [lexLt] at hab
    | cons y ys =>
      cases c with
      | nil => simp [lexLt] at hbc
      | cons z zs => simp [lexLt]
  | cons x xs ih =>
    intro b c hab hbc
    cases b with
    | nil => simp [lexLt] at hab
    | cons y ys =>
      cases c with
      | nil => simp [lexLt] at hbc
      | cons z zs =>
        simp only [lexLt, Bool.or_eq_true, Bool.and_eq_true, decide_eq_true_eq,
          beq_iff_eq] at hab hbc ⊢
        rcases hab with hab | ⟨hxy, hab⟩
        · rcases hbc with hbc | ⟨hyz, _⟩
          · left; omega
          · left; omega
        · rcases hbc with hbc | ⟨hyz, hbc⟩
          · left; omega
          · right; exact ⟨by omega, ih ys zs hab hbc⟩

theorem QString.lt_trans (a b c : String) (hab : QString.lt a b = true)
    (hbc : QString.lt b c = true) : QString.lt a c = true :=
  lexLt_trans _ _ _ hab hbc

theorem insertEntry_keys (k : String) (v : QVariant) (p : String → Prop) :
    ∀ es : List (String × QVariant), p k → (∀ e ∈ es, p e.1) →
      ∀ e ∈ insertEntry k v es, p e.1 := by
  intro es
  induction es with
  | nil => intro hk _ e he; simp [insertEntry] at he; rw [he]; exact hk
  | cons e1 rest ih =>
    intro hk hall e he
    obtain ⟨k1, v1⟩ := e1
    have h1 : p k1 := hall (k1, v1) (by simp)
    have hrest : ∀ e ∈ rest, p e.1 := fun e he => hall e (by simp [he])
    unfold insertEntry at he
    split at he
    · rcases List.mem_cons.mp he with he | he
      · rw [he]; exact h1
      · exact ih hk hrest e he
    · split at he
      · rcases List.mem_cons.mp he with he | he
        · rw [he]; exact hk
        · exact hall e he
      · rcases List.mem_cons.mp he with he | he
        · rw [he]; exact h1
        · exact hrest e he

/-- `QMap::insert` keeps the keys strictly ascending. -/
theorem QMap.insert_WF (m : QMap) (k : String) (v : QVariant) (h : m.WF) :
    (m.insert k v).WF := by
  obtain ⟨es⟩ := m
  simp only [QMap.WF, QMap.insert] at h ⊢
  induction es with
  | nil => simp [insertEntry]
  | cons e1 rest ih =>
    obtain ⟨k1, v1⟩ := e1
    have hhead := (List.pairwise_cons.mp h).1
    have htail := (List.pairwise_cons.mp h).2
    unfold insertEntry
    split
    · rename_i hlt
      refine List.pairwise_cons.mpr ⟨?_, ih htail⟩
      exact insertEntry_keys k v (fun x => QString.lt k1 x = true) rest hlt hhead
    · split
      · rename_i hlt
        refine List.pairwise_cons.mpr ⟨?_, h⟩
        intro e he
        rcases List.mem_cons.mp he with he | he
        · rw [he]; exact hlt
        · exact QString.lt_trans _ _ _ hlt (hhead e he)
      · exact List.pairwise_cons.mpr ⟨hhead, htail⟩

/-! ## Claims about the client -/

/-- C1: for a message whose arguments are all signed-int values, the envelope
asyncCall writes has, inside Envelope > Body, one method element named by the
method in the message namespace; its children are exactly one element per
argument, in the map's ascending key order, each named by its key in the
message namespace, with the single attribute xsi:type = "xsd:int" and the
decimal text of its value. -/
theorem asyncCall_signed_int_arguments (d : ClientPrivate) (method action : String)
    (message : KDSoapMessage) (ints : List (String × Int))
    (hargs : message.arguments.entries = ints.map fun kn => (kn.1, QVariant.Int kn.2))
    (hwf : message.arguments.WF) :
    ∃ m, methodElement (asyncCall d method message action).data = some m ∧
      m.ns = d.messageNamespace ∧ m.name = method ∧
      m.children = ints.map (fun kn =>
        typedElement d.messageNamespace kn.1 "xsd:int" (QString.number kn.2)) ∧
      m.children.length = message.arguments.entries.length ∧
      m.children.map XmlElement.name = message.arguments.entries.map Prod.fst ∧
      m.children.Pairwise (fun a b => QString.lt a.name b.name = true) ∧
      List.Forall₂ (fun c kn => readDecimal c.text = some kn.2) m.children ints := by
  have hchildren : argumentElements d.messageNamespace message.arguments.entries =
      ints.map (fun kn =>
        typedElement d.messageNamespace kn.1 "xsd:int" (QString.number kn.2)) := by
    rw [hargs]
    simp only [argumentElements, List.filter_map, List.map_map]
    have hfilter : ints.filter ((fun e : String × QVariant =>
        !(variantToXMLType e.2).isEmpty) ∘ fun kn => (kn.1, QVariant.Int kn.2)) = ints := by
      apply List.filter_eq_self.mpr
      intro kn _
      show (!(variantToXMLType (QVariant.Int kn.2)).isEmpty) = true
      simp only [variantToXMLType]
      decide
    rw [hfilter]
    apply List.map_congr_left
    intro kn _
    simp [variantToXMLType, variantToTextValue]
  have hnames : (ints.map (fun kn =>
      typedElement d.messageNamespace kn.1 "xsd:int" (QString.number kn.2))).map
        XmlElement.name = message.arguments.entries.map Prod.fst := by
    rw [hargs]
    simp [List.map_map, Function.comp_def, typedElement, XmlElement.name]
  refine ⟨_, asyncCall_methodElement d method action message, rfl, rfl, ?_, ?_, ?_, ?_, ?_⟩
  · exact hchildren
  · show (argumentElements _ _).length = _
    rw [hchildren, hargs]; simp
  · show (argumentElements _ _).map XmlElement.name = _
    rw [hchildren]; exact hnames
  · show (argumentElements _ _).Pairwise _
    have hkeys : (message.arguments.entries.map Prod.fst).Pairwise
        (fun a b => QString.lt a b = true) := List.pairwise_map.mpr hwf
    rw [← hnames, ← hchildren] at hkeys
    exact List.pairwise_map.mp hkeys
  · show List.Forall₂ _ (argumentElements _ _) ints
    rw [hchildren]
    rw [List.forall₂_map_left_iff]
    exact List.forall₂_same.mpr fun kn _ => by
      simpa [typedElement, XmlElement.text] using readDecimal_number kn.2

/-- C1, witness: method "Add", namespace "urn:calc", arguments b = 2 and a = 1
give the children a then b, with text "1" and "2". -/
theorem asyncCall_signed_int_arguments_witness :
    ∃ m, methodElement (asyncCall calcInterface "Add" addMessage "").data = some m ∧
      m.ns = "urn:calc" ∧ m.name = "Add" ∧
      m.children = [typedElement "urn:calc" "a" "xsd:int" "1",
                    typedElement "urn:calc" "b" "xsd:int" "2"] := by
  obtain ⟨m, hm, hns, hname, hchildren, _⟩ :=
    asyncCall_signed_int_arguments calcInterface "Add" "" addMessage [("a", 1), ("b", 2)]
      (by decide) (by decide)
  exact ⟨m, hm, hns, hname, hchildren⟩

/-- A variant whose type is none of the switch labels is an `Other` that takes
the last line of both switches. -/
theorem unsupported_codec (v : QVariant) (h : v.userType ∉ switchLabels) :
    variantToXMLType v = "" ∧
      ∃ t nm s f, v = .Other t nm s f ∧ variantToTextValue v = s := by
  cases v with
  | Other t nm s f =>
    have ht : t ≠ qMetaTypeId_float := by
      intro heq
      apply h
      simp [QVariant.userType, switchLabels, heq]
    exact ⟨by simp [variantToXMLType, ht], t, nm, s, f, rfl, by simp [variantToTextValue, ht]⟩
  | _ => exact absurd (by simp [QVariant.userType, switchLabels]) h

/-- C2 (as the code has it): asyncCall writes an argument element only for an
argument whose type tag is not empty.  The children of the method element are
the typed elements of those arguments, in key order; an argument of an
unsupported kind has the empty type tag and gets no element, so the number of
argument elements plus the number of arguments with an empty tag is the number
of arguments. -/
theorem asyncCall_skips_untagged_arguments (d : ClientPrivate) (method action : String)
    (message : KDSoapMessage) :
    ∃ m, methodElement (asyncCall d method message action).data = some m ∧
      m.ns = d.messageNamespace ∧ m.name = method ∧
      m.children =
        (message.arguments.entries.filter fun e => variantToXMLType e.2 ≠ "").map (fun e =>
          typedElement d.messageNamespace e.1 (variantToXMLType e.2) (variantToTextValue e.2)) ∧
      (∀ e ∈ message.arguments.entries, e.2.userType ∉ switchLabels →
        variantToXMLType e.2 = "") ∧
      m.children.length +
          message.arguments.entries.countP (fun e => variantToXMLType e.2 = "") =
        message.arguments.entries.length := by
  have hfilter : (message.arguments.entries.filter fun e => variantToXMLType e.2 ≠ "") =
      message.arguments.entries.filter fun e => !(variantToXMLType e.2).isEmpty := by
    apply List.filter_congr
    intro e _
    simp [isEmpty_eq_decide]
  refine ⟨_, asyncCall_methodElement d method action message, rfl, rfl, ?_, ?_, ?_⟩
  · show argumentElements _ _ = _
    rw [hfilter]; rfl
  · intro e _ h
    exact (unsupported_codec e.2 h).1
  · show (argumentElements _ _).length + _ = _
    have hlen : (argumentElements d.messageNamespace message.arguments.entries).length =
        message.arguments.entries.countP fun e => variantToXMLType e.2 ≠ "" := by
      simp only [argumentElements, List.length_map, ← hfilter, List.countP_eq_length_filter]
    rw [hlen]
    have := List.length_eq_countP_add_countP
      (fun e : String × QVariant => decide (variantToXMLType e.2 ≠ ""))
      message.arguments.entries
    simp only [decide_not, Bool.not_eq_true', decide_eq_false_iff_not,
      Bool.not_not, decide_eq_true_eq] at this ⊢
    omega

/-- C2, counterexample: a message whose only argument is of an unsupported
kind (a QStringList) gives a method element without children: no element
named "items" is written, and the count of argument elements (0) differs from
the count of arguments (1). -/
theorem asyncCall_unsupported_argument_dropped :
    listMessage.arguments.WF ∧
      listMessage.arguments.entries = [("items", stringListValue)] ∧
      stringListValue.userType ∉ switchLabels ∧
      methodElement (asyncCall calcInterface "List" listMessage "").data =
        some (.mk "urn:calc" "List" [] [] "" []) ∧
      ¬ ∃ m, methodElement (asyncCall calcInterface "List" listMessage "").data = some m ∧
        m.children.length = listMessage.arguments.entries.length := by
  have hm : methodElement (asyncCall calcInterface "List" listMessage "").data =
      some (.mk "urn:calc" "List" [] [] "" []) := by
    rw [asyncCall_methodElement]; rfl
  refine ⟨by decide, by decide, by decide, hm, ?_⟩
  rintro ⟨m, h1, h2⟩
  rw [hm] at h1
  injection h1 with h1
  subst h1
  revert h2
  decide

/-- C3: the SoapAction header asyncCall sets is the action string unchanged
when it is not empty, and otherwise the message namespace immediately
followed by the method name. -/
theorem asyncCall_soapAction (d : ClientPrivate) (method action : String)
    (message : KDSoapMessage) :
    (asyncCall d method message action).request.rawHeader "SoapAction" =
      some (if action = "" then d.messageNamespace ++ method else action) := by
  simp [asyncCall, QNetworkRequest.setRawHeader, QNetworkRequest.rawHeader, isEmpty_eq_decide]

/-- C3, the two inputs the specification names. -/
theorem asyncCall_soapAction_examples :
    (asyncCall calcInterface "Add" addMessage "").request.rawHeader "SoapAction" =
        some "urn:calcAdd" ∧
      (asyncCall calcInterface "Add" addMessage "urn:CustomAction").request.rawHeader
        "SoapAction" = some "urn:CustomAction" := by
  rw [asyncCall_soapAction, asyncCall_soapAction]
  decide

/-- C4: for every signed-int n the type tag is "xsd:int" and the text is the
decimal rendering of n, which reads back as n (42 gives "42"); for every bool
the type tag is "xsd:boolean" and the text is "true" or "false" according to
the value; and a value whose type is none of the enumerated ones gets the
empty type tag while its text is the result of its own string conversion. -/
theorem valueCodec_int_bool_unsupported :
    (∀ n : Int, variantToXMLType (.Int n) = "xsd:int" ∧
      variantToTextValue (.Int n) = QString.number n ∧
      readDecimal (variantToTextValue (.Int n)) = some n) ∧
    (variantToXMLType (.Int 42) = "xsd:int" ∧ variantToTextValue (.Int 42) = "42") ∧
    (∀ b : Bool, variantToXMLType (.Bool b) = "xsd:boolean" ∧
      variantToTextValue (.Bool b) = (if b then "true" else "false")) ∧
    (variantToTextValue (.Bool true) = "true" ∧ variantToTextValue (.Bool false) = "false") ∧
    (∀ v : QVariant, v.userType ∉ switchLabels →
      variantToXMLType v = "" ∧
      ∃ t nm s f, v = .Other t nm s f ∧ variantToTextValue v = s) := by
  refine ⟨fun n => ⟨rfl, rfl, readDecimal_number n⟩, ⟨rfl, by decide⟩,
    fun b => ⟨rfl, rfl⟩, ⟨rfl, rfl⟩, unsupported_codec⟩

/-- C4, at a QStringList: no type tag, and the text of its string conversion. -/
theorem valueCodec_int_bool_unsupported_witness :
    variantToXMLType stringListValue = "" ∧ variantToTextValue stringListValue = "one" := by
  obtain ⟨h1, _, _, _, _, h2⟩ :=
    valueCodec_int_bool_unsupported.2.2.2.2 stringListValue (by decide)
  exact ⟨h1, by decide⟩

/-- C5 (as the code has it): the type tag is "xsd:int" for signed-int, long
and also unsigned-int, and "xsd:unsignedInt" for unsigned-long only; in all
four cases the text is the decimal rendering of the value, which reads back
as the value. -/
theorem valueCodec_integer_rows :
    (∀ n : Int,
      variantToXMLType (.Int n) = "xsd:int" ∧ variantToXMLType (.LongLong n) = "xsd:int" ∧
      readDecimal (variantToTextValue (.Int n)) = some n ∧
      readDecimal (variantToTextValue (.LongLong n)) = some n) ∧
    (∀ u : Nat,
      variantToXMLType (.UInt u) = "xsd:int" ∧
      variantToXMLType (.ULongLong u) = "xsd:unsignedInt" ∧
      readDecimal (variantToTextValue (.UInt u)) = some (u : Int) ∧
      readDecimal (variantToTextValue (.ULongLong u)) = some (u : Int)) :=
  ⟨fun n => ⟨rfl, rfl, readDecimal_number n, readDecimal_number n⟩,
   fun u => ⟨rfl, rfl, readDecimal_number u, readDecimal_number u⟩⟩

/-- C5, counterexample: the unsigned-int value 7 gets the type tag "xsd:int",
not "xsd:unsignedInt". -/
theorem valueCodec_unsigned_int_tag :
    variantToXMLType (.UInt 7) = "xsd:int" ∧ variantToXMLType (.UInt 7) ≠ "xsd:unsignedInt" := by
  decide

/-! ## endPoint -/

theorem scanSegments_lits (pre : List Char) (hpre : '%' ∉ pre) :
    ∀ (fuel : Nat) (rest : List Char),
      scanSegments (pre.length + fuel) (pre ++ rest) =
        pre.map ArgSegment.lit ++ scanSegments fuel rest := by
  induction pre with
  | nil => intro fuel rest; simp
  | cons c pre ih =>
    intro fuel rest
    have hc : c ≠ '%' := fun h => hpre (by simp [h])
    have hpre2 : '%' ∉ pre := fun h => hpre (by simp [h])
    have hlen : (c :: pre).length + fuel = (pre.length + fuel) + 1 := by
      simp only [List.length_cons]; omega
    rw [hlen, List.cons_append, scanSegments]
    simp [hc, ih hpre2]

theorem minEscape_lits (pre : List Char) (segs : List ArgSegment) :
    minEscape (pre.map ArgSegment.lit ++ segs) = minEscape segs := by
  induction pre with
  | nil => rfl
  | cons c pre ih => simpa [minEscape] using ih

theorem replaceSegments_lits (lowest : Nat) (a larg pre : List Char)
    (segs : List ArgSegment) :
    replaceSegments lowest a larg (pre.map ArgSegment.lit ++ segs) =
      pre ++ replaceSegments lowest a larg segs := by
  induction pre with
  | nil => rfl
  | cons c pre ih => simpa [replaceSegments] using ih

/-- The second `arg` of endPoint puts the address text at `%2`. -/
theorem arg_address (a : String) :
    QString.arg "http://%2:%3/path" a a = "http://" ++ a ++ ":%3/path" := by
  apply String.ext
  simp [QString.arg, scanSegments, readEscape, minEscape, replaceSegments, digitValue,
    String.length, Char.isDigit]

/-- The third `arg` of endPoint puts the port at `%3`, when the address text
brought no place marker of its own. -/
theorem arg_port (a p lp : String) (ha : '%' ∉ a.toList) :
    QString.arg ("http://" ++ a ++ ":%3/path") p lp = "http://" ++ a ++ ":" ++ p ++ "/path" := by
  have hlist : ("http://" ++ a ++ ":%3/path").toList =
      ("http://".toList ++ a.toList) ++ ":%3/path".toList := by
    simp [String.toList]
  have hlen : ("http://" ++ a ++ ":%3/path").length =
      ("http://".toList ++ a.toList).length + 8 := by
    simp only [String.length_append, List.length_append]
    rfl
  have hpre : '%' ∉ "http://".toList ++ a.toList := by
    intro h
    rcases List.mem_append.mp h with h | h
    · revert h; decide
    · exact ha h
  have hscan : scanSegments 8 ":%3/path".toList =
      [.lit ':', .esc 3 false ['%', '3'], .lit '/', .lit 'p', .lit 'a', .lit 't', .lit 'h'] := by
    decide
  apply String.ext
  simp only [QString.arg, hlist, hlen, scanSegments_lits _ hpre, minEscape_lits, hscan,
    replaceSegments_lits]
  simp [minEscape, replaceSegments, String.toList]

/-- For an address whose text has no `%` (every IPv4 address, every IPv6
address without a scope id), endPoint is "http://" + A + ":" + port + "/path",
with A = "127.0.0.1" for the wildcard address. -/
theorem endPoint_plain_address (locale : QLocale) (s : KDSoapServer)
    (h : s.serverAddress.isAny = true ∨ '%' ∉ s.serverAddress.toString.toList) :
    s.endPoint locale =
      "http://" ++ (if s.serverAddress.isAny then "127.0.0.1" else s.serverAddress.toString) ++
        ":" ++ QString.number s.serverPort ++ "/path" := by
  have h1 : QString.arg "%1://%2:%3/path" "http" "http" = "http://%2:%3/path" := by decide
  have ha : '%' ∉
      (if s.serverAddress.isAny then "127.0.0.1" else s.serverAddress.toString).toList := by
    by_cases hany : s.serverAddress.isAny = true
    · simp only [hany, if_true]; decide
    · simp only [hany, Bool.false_eq_true, if_false]
      rcases h with h | h
      · exact absurd h hany
      · exact h
  simp only [KDSoapServer.endPoint, h1, arg_address]
  exact arg_port _ _ _ ha

/-- C7, the input the specification names: bound to the wildcard address on
port 8080, endPoint is "http://127.0.0.1:8080/path". -/
theorem endPoint_wildcard_8080 :
    wildcardServer.endPoint cLocale = "http://127.0.0.1:8080/path" := by
  decide

/-- C7, failing input: bound to fe80::1 with scope id 3 on port 8080, the
address text is "fe80::1%3".  The second `arg` puts it into the string, the
third `arg` then finds two markers `%3` and replaces both with the port:
endPoint is "http://fe80::18080:8080/path", not "http://fe80::1%3:8080/path". -/
theorem endPoint_scoped_address :
    linkLocalServer.serverAddress.toString = "fe80::1%3" ∧
      linkLocalServer.endPoint cLocale = "http://fe80::18080:8080/path" ∧
      linkLocalServer.endPoint cLocale ≠
        "http://" ++ linkLocalServer.serverAddress.toString ++ ":" ++
          QString.number linkLocalServer.serverPort ++ "/path" := by
  decide

/-! ## Dispatch -/

theorem incomingConnections_pool (p : Nat) (s : KDSoapServer) (hp : s.m_threadPool = some p)
    (fds : List Int) : ∀ pools : Pools,
    s.incomingConnections pools fds =
      (s, Function.update pools p { connections := (pools p).connections ++ fds }) := by
  induction fds with
  | nil =>
    intro pools
    simp [KDSoapServer.incomingConnections]
  | cons fd fds ih =>
    intro pools
    have hstep : s.incomingConnection pools fd =
        (s, Function.update pools p { connections := (pools p).connections ++ [fd] }) := by
      simp [KDSoapServer.incomingConnection, hp, KDSoapThreadPool.handleIncomingConnection]
    have h := ih (Function.update pools p { connections := (pools p).connections ++ [fd] })
    simp only [KDSoapServer.incomingConnections, List.foldl_cons] at h ⊢
    rw [hstep, h]
    simp

theorem incomingConnections_mainThread (pools : Pools) (fds : List Int) :
    ∀ s : KDSoapServer, s.m_threadPool = none →
    s.incomingConnections pools fds =
      ({ s with m_mainThreadSocketList :=
          if fds = [] then s.m_mainThreadSocketList
          else some { sockets := (s.m_mainThreadSocketList.getD { sockets := [] }).sockets ++ fds } },
        pools) := by
  induction fds with
  | nil =>
    intro s _
    simp [KDSoapServer.incomingConnections]
  | cons fd fds ih =>
    intro s hp
    have hstep : s.incomingConnection pools fd =
        ({ s with m_mainThreadSocketList := some (KDSoapSocketList.mk
            ((s.m_mainThreadSocketList.getD (KDSoapSocketList.mk [])).sockets ++ [fd])) },
          pools) := by
      cases h : s.m_mainThreadSocketList <;>
        simp [KDSoapServer.incomingConnection, hp, h,
          KDSoapSocketList.handleIncomingConnection]
    have h := ih { s with m_mainThreadSocketList := some (KDSoapSocketList.mk
      ((s.m_mainThreadSocketList.getD (KDSoapSocketList.mk [])).sockets ++ [fd])) } hp
    simp only [KDSoapServer.incomingConnections, List.foldl_cons] at h ⊢
    rw [hstep, h]
    by_cases hfds : fds = [] <;> simp [hfds]

/-- C6 (as the code has it): setThreadPool makes no check and reports
nothing.  In every server state, listening or not, with or without accepted
connections, it replaces the thread pool pointer and changes no other member.
Every later incomingConnection is routed by the pointer set last.  When it is
not null, any run of later connections leaves the server as setThreadPool left
it, hands every descriptor to that pool, in order, and touches no other pool,
and numConnectedSockets reads the pool.  When it is null, any run of later
connections keeps the pointer null, leaves the pools alone and appends every
descriptor to the main-thread socket list, and numConnectedSockets reads that
list. -/
theorem setThreadPool_replaces_dispatch (s : KDSoapServer) (pools : Pools)
    (threadPool : Option Nat) :
    ((s.setThreadPool threadPool).threadPool = threadPool ∧
      (s.setThreadPool threadPool).isListening = s.isListening ∧
      (s.setThreadPool threadPool).serverAddress = s.serverAddress ∧
      (s.setThreadPool threadPool).serverPort = s.serverPort ∧
      (s.setThreadPool threadPool).m_mainThreadSocketList = s.m_mainThreadSocketList ∧
      (s.setThreadPool threadPool).m_logFileName = s.m_logFileName ∧
      (s.setThreadPool threadPool).m_logFile = s.m_logFile) ∧
    (∀ (p : Nat) (fds : List Int), threadPool = some p →
      (s.setThreadPool threadPool).incomingConnections pools fds =
          (s.setThreadPool threadPool,
            Function.update pools p { connections := (pools p).connections ++ fds }) ∧
        ((s.setThreadPool threadPool).incomingConnections pools fds).1.threadPool = some p ∧
        ((s.setThreadPool threadPool).incomingConnections pools fds).1.m_mainThreadSocketList =
          s.m_mainThreadSocketList ∧
        ((s.setThreadPool threadPool).incomingConnections pools fds).2 p =
          { connections := (pools p).connections ++ fds } ∧
        (∀ q, q ≠ p →
          ((s.setThreadPool threadPool).incomingConnections pools fds).2 q = pools q) ∧
        ((s.setThreadPool threadPool).incomingConnections pools fds).1.numConnectedSockets
            ((s.setThreadPool threadPool).incomingConnections pools fds).2 =
          (pools p).numConnectedSockets + fds.length) ∧
    (∀ fds : List Int, threadPool = none →
      (s.setThreadPool threadPool).incomingConnections pools fds =
          ({ s with
              m_threadPool := none,
              m_mainThreadSocketList :=
                if fds = [] then s.m_mainThreadSocketList
                else some { sockets :=
                  (s.m_mainThreadSocketList.getD { sockets := [] }).sockets ++ fds } },
            pools) ∧
        ((s.setThreadPool threadPool).incomingConnections pools fds).1.threadPool = none ∧
        ((s.setThreadPool threadPool).incomingConnections pools fds).2 = pools ∧
        ((s.setThreadPool threadPool).incomingConnections pools fds).1.numConnectedSockets
            ((s.setThreadPool threadPool).incomingConnections pools fds).2 =
          (s.m_mainThreadSocketList.getD { sockets := [] }).socketCount + fds.length) := by
  refine ⟨⟨rfl, rfl, rfl, rfl, rfl, rfl, rfl⟩, ?_, ?_⟩
  · intro p fds hp
    subst hp
    have h := incomingConnections_pool p (s.setThreadPool (some p)) rfl fds pools
    rw [h]
    refine ⟨rfl, rfl, rfl, by simp, ?_, ?_⟩
    · intro q hq
      simp [Function.update_noteq hq]
    · simp [KDSoapServer.numConnectedSockets, KDSoapServer.setThreadPool,
        KDSoapThreadPool.numConnectedSockets]
  · intro fds hp
    subst hp
    have h := incomingConnections_mainThread pools fds (s.setThreadPool none) rfl
    rw [h]
    refine ⟨rfl, rfl, rfl, ?_⟩
    by_cases hfds : fds = []
    · cases hl : s.m_mainThreadSocketList <;>
        simp [KDSoapServer.numConnectedSockets, KDSoapServer.setThreadPool, hfds, hl,
          KDSoapSocketList.socketCount]
    · simp [KDSoapServer.numConnectedSockets, KDSoapServer.setThreadPool, hfds,
        KDSoapSocketList.socketCount]

/-- C6, counterexample: a listening server that has accepted two connections
on the main-thread socket list takes setThreadPool(pool 0): the pointer
changes, the next connection goes to the pool and not to the socket list, and
numConnectedSockets reads 1 from the pool where it read 2 before. -/
theorem setThreadPool_while_serving_switches_dispatch :
    servingServer.isListening = true ∧
    servingServer.threadPool = none ∧
    servingServer.m_mainThreadSocketList = some { sockets := [5, 6] } ∧
    servingServer.numConnectedSockets noPools = 2 ∧
    (servingServer.setThreadPool (some 0)).threadPool = some 0 ∧
    (servingServer.setThreadPool (some 0)).threadPool ≠ servingServer.threadPool ∧
    ((servingServer.setThreadPool (some 0)).incomingConnection noPools
      7).1.m_mainThreadSocketList = some { sockets := [5, 6] } ∧
    ((servingServer.setThreadPool (some 0)).incomingConnection noPools 7).2 0 =
      { connections := [7] } ∧
    ((servingServer.setThreadPool (some 0)).incomingConnection noPools
      7).1.numConnectedSockets
        ((servingServer.setThreadPool (some 0)).incomingConnection noPools 7).2 = 1 := by
  decide

/-! ## Descriptor limits -/

theorem setrlimit_getrlimitWorks (os : ProcessLimits) (lim : Rlimit) :
    (setrlimit os lim).2.getrlimitWorks = os.getrlimitWorks := by
  unfold setrlimit
  simp only []
  split <;> rfl

theorem setrlimit_success (os : ProcessLimits) (lim : Rlimit)
    (h : (setrlimit os lim).1 = true) : (setrlimit os lim).2.nofile = lim := by
  unfold setrlimit at h ⊢
  simp only [] at h ⊢
  split
  · rfl
  · rename_i hp; simp [hp] at h

/-- C8: setExpectedSocketCount is idempotent.  If a call with a socket count
n >= 0 returns true, the soft limit then covers n + 20, and a second call
with the same n returns true on the "nothing to do" line: it leaves the
process as it was, without a further setrlimit call. -/
theorem setExpectedSocketCount_idempotent (os : ProcessLimits) (n : Int) (hn : -1 < n)
    (hfirst : (setExpectedSocketCount os n).1 = true) :
    rlim_t (toInt32 (n + 20)) ≤ (setExpectedSocketCount os n).2.nofile.rlim_cur ∧
    setExpectedSocketCount (setExpectedSocketCount os n).2 n =
      (true, (setExpectedSocketCount os n).2) ∧
    (setExpectedSocketCount (setExpectedSocketCount os n).2 n).2.setrlimitCalls =
      (setExpectedSocketCount os n).2.setrlimitCalls := by
  have hgt : n > -1 := hn
  have hget : os.getrlimitWorks = true := by
    by_contra hg
    simp [setExpectedSocketCount, hg] at hfirst
  have hget2 : (setExpectedSocketCount os n).2.getrlimitWorks = true := by
    unfold setExpectedSocketCount
    simp only [hget, Bool.not_true, Bool.false_eq_true, if_false, hgt, if_true]
    split
    · exact hget
    · simp only [applyLimit]; rw [setrlimit_getrlimitWorks]; exact hget
  have hcover : rlim_t (toInt32 (n + 20)) ≤ (setExpectedSocketCount os n).2.nofile.rlim_cur := by
    unfold setExpectedSocketCount at hfirst ⊢
    simp only [hget, Bool.not_true, Bool.false_eq_true, if_false, hgt, if_true] at hfirst ⊢
    split
    · assumption
    · rename_i hsmall
      simp only [hsmall, if_false] at hfirst
      simp only [applyLimit] at hfirst ⊢
      rw [setrlimit_success _ _ hfirst]
      split <;> dsimp only <;> omega
  have hsecond : setExpectedSocketCount (setExpectedSocketCount os n).2 n =
      (true, (setExpectedSocketCount os n).2) := by
    generalize setExpectedSocketCount os n = r at hget2 hcover
    simp [setExpectedSocketCount, hget2, hgt, hcover]
  exact ⟨hcover, hsecond, by rw [hsecond]⟩

/-- C8, witness: from soft limit 1024 and hard limit 4096, the first call for
2000 sockets raises the soft limit and returns true; the second changes nothing. -/
theorem setExpectedSocketCount_idempotent_witness :
    (setExpectedSocketCount userLimits 2000).2.nofile = { rlim_cur := 4096, rlim_max := 4096 } ∧
    (setExpectedSocketCount (setExpectedSocketCount userLimits 2000).2 2000).1 = true ∧
    (setExpectedSocketCount (setExpectedSocketCount userLimits 2000).2 2000).2.setrlimitCalls =
      (setExpectedSocketCount userLimits 2000).2.setrlimitCalls :=
  have h := setExpectedSocketCount_idempotent userLimits 2000 (by decide) (by decide)
  ⟨by decide, by rw [h.2.1], h.2.2⟩

/-- C10 (as the code has it): with a negative socket count the function does
not only query.  When getrlimit works it asks setrlimit for a soft limit
equal to the current hard limit; the hard limit stays as it was, the soft
limit becomes the hard limit when setrlimit succeeds (result true) and stays
as it was when setrlimit fails (result false).  When getrlimit fails the
result is false and nothing changes. -/
theorem setExpectedSocketCount_negative (os : ProcessLimits) (n : Int) (hn : n < 0) :
    (os.getrlimitWorks = false → setExpectedSocketCount os n = (false, os)) ∧
    (os.getrlimitWorks = true →
      setExpectedSocketCount os n =
        setrlimit os { rlim_cur := os.nofile.rlim_max, rlim_max := os.nofile.rlim_max } ∧
      (setExpectedSocketCount os n).2.setrlimitCalls =
        os.setrlimitCalls ++
          [{ rlim_cur := os.nofile.rlim_max, rlim_max := os.nofile.rlim_max }] ∧
      (setExpectedSocketCount os n).2.nofile.rlim_max = os.nofile.rlim_max ∧
      ((setExpectedSocketCount os n).1 = true →
        (setExpectedSocketCount os n).2.nofile.rlim_cur = os.nofile.rlim_max) ∧
      ((setExpectedSocketCount os n).1 = false →
        (setExpectedSocketCount os n).2.nofile = os.nofile)) := by
  have hneg : ¬ n > -1 := by omega
  constructor
  · intro hget
    simp [setExpectedSocketCount, hget]
  · intro hget
    have heq : setExpectedSocketCount os n =
        setrlimit os { rlim_cur := os.nofile.rlim_max, rlim_max := os.nofile.rlim_max } := by
      simp [setExpectedSocketCount, hget, hneg, applyLimit]
    rw [heq]
    unfold setrlimit
    simp only []
    refine ⟨trivial, ?_, ?_, ?_, ?_⟩ <;> split <;> simp

/-- C10, witness of the amended statement: soft 1024, hard 4096, count -1. -/
theorem setExpectedSocketCount_negative_witness :
    (setExpectedSocketCount userLimits (-1)).2.nofile.rlim_max = 4096 ∧
      (setExpectedSocketCount userLimits (-1)).2.setrlimitCalls =
        [{ rlim_cur := 4096, rlim_max := 4096 }] :=
  have h := (setExpectedSocketCount_negative userLimits (-1) (by decide)).2 rfl
  ⟨h.2.2.1, h.2.1⟩

/-- C10, counterexample: from soft limit 1024 and hard limit 4096, the call
with -1 makes one setrlimit call and raises the soft limit to 4096. -/
theorem setExpectedSocketCount_sentinel_raises_soft_limit :
    userLimits.nofile = { rlim_cur := 1024, rlim_max := 4096 } ∧
    (setExpectedSocketCount userLimits (-1)).1 = true ∧
    (setExpectedSocketCount userLimits (-1)).2.nofile = { rlim_cur := 4096, rlim_max := 4096 } ∧
    (setExpectedSocketCount userLimits (-1)).2.nofile.rlim_cur ≠ userLimits.nofile.rlim_cur ∧
    (setExpectedSocketCount userLimits (-1)).2.setrlimitCalls =
      [{ rlim_cur := 4096, rlim_max := 4096 }] := by
  decide

/-! ## Logging -/

theorem log_disabled (s : KDSoapServer) (w : LogWorld) (text : String)
    (hclosed : s.m_logFile.isOpen = false) (hname : s.m_logFileName = "") :
    s.log w text = (s, w) := by
  simp [KDSoapServer.log, QFile.write, hclosed, hname, isEmpty_eq_decide]

theorem logAll_disabled (s : KDSoapServer) (w : LogWorld) (texts : List String)
    (hclosed : s.m_logFile.isOpen = false) (hname : s.m_logFileName = "") :
    s.logAll w texts = (s, w) := by
  induction texts with
  | nil => rfl
  | cons t ts ih =>
    simp only [KDSoapServer.logAll, List.foldl_cons] at ih ⊢
    rw [log_disabled s w t hclosed hname]
    exact ih

theorem log_open (s : KDSoapServer) (w : LogWorld) (text : String)
    (hopen : s.m_logFile.isOpen = true) :
    s.log w text = (s, { w with written := w.written ++ [(s.m_logFile.fileName, text)] }) := by
  simp [KDSoapServer.log, QFile.write, hopen]

theorem logAll_open (s : KDSoapServer) (texts : List String)
    (hopen : s.m_logFile.isOpen = true) : ∀ w : LogWorld,
    s.logAll w texts =
      (s, { w with written := w.written ++ texts.map fun t => (s.m_logFile.fileName, t) }) := by
  induction texts with
  | nil => intro w; simp [KDSoapServer.logAll]
  | cons t ts ih =>
    intro w
    have h := ih { w with written := w.written ++ [(s.m_logFile.fileName, t)] }
    simp only [KDSoapServer.logAll, List.foldl_cons] at h ⊢
    rw [log_open s w t hopen, h]
    simp

theorem log_open_fails (s : KDSoapServer) (w : LogWorld) (text : String)
    (hclosed : s.m_logFile.isOpen = false) (hname : s.m_logFileName ≠ "")
    (hbad : w.canOpen s.m_logFileName = false) :
    s.log w text =
      ({ s with m_logFile := { s.m_logFile with fileName := s.m_logFileName },
                m_logFileName := "" },
       { w with openAttempts := w.openAttempts ++ [s.m_logFileName],
                diagnostics := w.diagnostics ++
                  ["Could not open log file for writing: " ++ s.m_logFileName] }) := by
  simp [KDSoapServer.log, hclosed, hname, hbad, isEmpty_eq_decide]

/-- C9 (as the code has it): after setLogFileName to a path that cannot be
opened, any run of log() calls attempts the open at most once.  When no log
file is open at that point, the first log() makes the one attempt (none for
the empty path), clears the configured file name and drops its write; every
later log() makes no attempt and writes nothing.  When a log file is already
open, no open is attempted at all: the configured name stays and every
log() still writes to the open file. -/
theorem log_open_failure_sticky (s : KDSoapServer) (w : LogWorld) (path : String)
    (texts : List String) (hbad : w.canOpen path = false) :
    ((s.setLogFileName path).logAll w texts).2.openAttempts.length ≤
      w.openAttempts.length + 1 ∧
    (s.m_logFile.isOpen = false →
      ((s.setLogFileName path).logAll w texts).2.openAttempts =
          w.openAttempts ++ (if path = "" ∨ texts = [] then [] else [path]) ∧
        ((s.setLogFileName path).logAll w texts).2.written = w.written ∧
        ((s.setLogFileName path).logAll w texts).1.m_logFile.isOpen = false ∧
        (texts ≠ [] → ((s.setLogFileName path).logAll w texts).1.m_logFileName = "")) ∧
    (s.m_logFile.isOpen = true →
      ((s.setLogFileName path).logAll w texts).2.openAttempts = w.openAttempts ∧
        ((s.setLogFileName path).logAll w texts).1.m_logFileName = path ∧
        ((s.setLogFileName path).logAll w texts).2.written =
          w.written ++ texts.map fun t => (s.m_logFile.fileName, t)) := by
  have hclosedCase : s.m_logFile.isOpen = false →
      ((s.setLogFileName path).logAll w texts).2.openAttempts =
          w.openAttempts ++ (if path = "" ∨ texts = [] then [] else [path]) ∧
        ((s.setLogFileName path).logAll w texts).2.written = w.written ∧
        ((s.setLogFileName path).logAll w texts).1.m_logFile.isOpen = false ∧
        (texts ≠ [] → ((s.setLogFileName path).logAll w texts).1.m_logFileName = "") := by
    intro hclosed
    cases texts with
    | nil => simp [KDSoapServer.logAll, KDSoapServer.setLogFileName, hclosed]
    | cons t ts =>
      by_cases hpath : path = ""
      · rw [logAll_disabled (s.setLogFileName path) w (t :: ts) hclosed
          (by simp [KDSoapServer.setLogFileName, hpath])]
        simp [KDSoapServer.setLogFileName, hclosed, hpath]
      · have hstep := log_open_fails (s.setLogFileName path) w t hclosed hpath hbad
        have hrest : ∀ (s1 : KDSoapServer) (w1 : LogWorld),
            (s.setLogFileName path).log w t = (s1, w1) →
            (s.setLogFileName path).logAll w (t :: ts) = s1.logAll w1 ts := by
          intro s1 w1 h
          simp only [KDSoapServer.logAll, List.foldl_cons, h]
        obtain ⟨s1, w1, hlog, hs1open, hs1name, hw1att, hw1written⟩ :
            ∃ s1 w1, (s.setLogFileName path).log w t = (s1, w1) ∧
              s1.m_logFile.isOpen = false ∧ s1.m_logFileName = "" ∧
              w1.openAttempts = w.openAttempts ++ [path] ∧ w1.written = w.written :=
          ⟨_, _, hstep, hclosed, rfl, rfl, rfl⟩
        rw [hrest s1 w1 hlog, logAll_disabled s1 w1 ts hs1open hs1name]
        simp [hs1open, hs1name, hw1att, hw1written, hpath]
  have hopenCase : s.m_logFile.isOpen = true →
      ((s.setLogFileName path).logAll w texts).2.openAttempts = w.openAttempts ∧
        ((s.setLogFileName path).logAll w texts).1.m_logFileName = path ∧
        ((s.setLogFileName path).logAll w texts).2.written =
          w.written ++ texts.map fun t => (s.m_logFile.fileName, t) := by
    intro hopen
    rw [logAll_open (s.setLogFileName path) texts hopen w]
    exact ⟨rfl, rfl, rfl⟩
  refine ⟨?_, hclosedCase, hopenCase⟩
  cases hopen : s.m_logFile.isOpen with
  | false =>
    rw [(hclosedCase hopen).1]
    split <;> simp
  | true =>
    rw [(hopenCase hopen).1]
    omega

/-- C9, witness: on a fresh server, two log() calls after setLogFileName to a
path that cannot be opened make one open attempt, write nothing and leave the
file name cleared. -/
theorem log_open_failure_sticky_witness :
    ((freshServer.setLogFileName "/nowhere/server.log").logAll logWorld
        ["one", "two"]).2.openAttempts = ["/nowhere/server.log"] ∧
      ((freshServer.setLogFileName "/nowhere/server.log").logAll logWorld
        ["one", "two"]).2.written = [] ∧
      ((freshServer.setLogFileName "/nowhere/server.log").logAll logWorld
        ["one", "two"]).1.m_logFileName = "" :=
  have h := (log_open_failure_sticky freshServer logWorld "/nowhere/server.log"
    ["one", "two"] (by decide)).2.1 rfl
  ⟨h.1, h.2.1, h.2.2.2 (by decide)⟩

/-- C9, counterexample: with the log file "server.log" already open,
setLogFileName to a path that cannot be opened and one log() leave the
configured file name in place and write the text to "server.log". -/
theorem log_with_open_file_keeps_name :
    loggingServer.1.m_logFile = { fileName := "server.log", isOpen := true } ∧
    loggingServer.2.canOpen "/nowhere/server.log" = false ∧
    ((loggingServer.1.setLogFileName "/nowhere/server.log").log loggingServer.2
      "next").1.m_logFileName = "/nowhere/server.log" ∧
    ((loggingServer.1.setLogFileName "/nowhere/server.log").log loggingServer.2
      "next").1.m_logFileName ≠ "" ∧
    ((loggingServer.1.setLogFileName "/nowhere/server.log").log loggingServer.2
      "next").2.written = [("server.log", "started"), ("server.log", "next")] ∧
    ((loggingServer.1.setLogFileName "/nowhere/server.log").log loggingServer.2
      "next").2.openAttempts = ["server.log"] := by
  decide

end KDSoap
